import Mathlib

set_option maxRecDepth 100000

/-!
Verification of the receipt extraction engine (`ReceiptParser` class of the
monetiq repository).  The JavaScript source is shallowly embedded: strings are
`List Char`, JavaScript numbers are `ℚ` (all arithmetic the engine performs on
prices stays exact on 2-3 decimal values; `toFixed(2)` is modelled by `round2`),
and the handful of regular expressions the source uses are hand-compiled to
executable scanners with identical match semantics.  `parse` takes the current
processing date (`new Date().toISOString().split('T')[0]` in the source) as an
explicit `today` parameter.
-/

namespace ReceiptParser

/-- A produced line item (`{description, price, category}` object in the source). -/
structure LineItem where
  description : List Char
  price : ℚ
  category : List Char
deriving DecidableEq

/-- The engine's output draft (the `data` object built by `parse`). -/
structure ReceiptDraft where
  merchant : List Char
  date : List Char
  total : ℚ
  items : List LineItem
deriving DecidableEq

/-- JavaScript `\s` restricted to the characters that can occur here
(space, tab, newline, carriage return, vertical tab, form feed). -/
def isSpaceCh (c : Char) : Bool :=
  decide (c = ' ') || decide (c = '\t') || decide (c = '\n') || decide (c = '\r') ||
    decide (c = '\x0B') || decide (c = '\x0C')

/-- JavaScript `\w`: ASCII letters, digits and underscore. -/
def isWordChar (c : Char) : Bool :=
  c.isAlpha || c.isDigit || decide (c = '_')

/-- `String.prototype.toUpperCase` on the characters appearing in the engine's
tables (ASCII plus the accented letters of the noise keywords). -/
def toUpperChar (c : Char) : Char :=
  if c = 'á' then 'Á' else if c = 'é' then 'É' else if c = 'í' then 'Í'
  else if c = 'ó' then 'Ó' else if c = 'ú' then 'Ú' else if c = 'ñ' then 'Ñ'
  else c.toUpper

def toUpperL (l : List Char) : List Char := l.map toUpperChar

/-- `String.prototype.trim`. -/
def trimL (l : List Char) : List Char :=
  ((l.dropWhile isSpaceCh).reverse.dropWhile isSpaceCh).reverse

/-- `rawText.split('\n')`. -/
def splitNl : List Char → List (List Char)
  | [] => [[]]
  | c :: rest =>
    if c = '\n' then [] :: splitNl rest
    else
      match splitNl rest with
      | g :: gs => (c :: g) :: gs
      | [] => [[c]]

/-- `rawText.split('\n').map(l => l.trim()).filter(l => l.length > 0)`. -/
def linesOf (raw : List Char) : List (List Char) :=
  ((splitNl raw).map trimL).filter (fun l => !l.isEmpty)

/-- `lines.join(' ')`. -/
def joinSp : List (List Char) → List Char
  | [] => []
  | [l] => l
  | l :: ls => l ++ ' ' :: joinSp ls

/-- Does the character `a` occur in the list (JS `String.prototype.includes` for
a single character)? -/
def hasChar (a : Char) : List Char → Bool
  | [] => false
  | c :: cs => decide (c = a) || hasChar a cs

def startsWithL : List Char → List Char → Bool
  | [], _ => true
  | _ :: _, [] => false
  | a :: as, b :: bs => decide (b = a) && startsWithL as bs

/-- JS `String.prototype.includes` (also a regex alternation of literals). -/
def containsSub (pat : List Char) : List Char → Bool
  | [] => startsWithL pat []
  | s@(_ :: rest) => startsWithL pat s || containsSub pat rest

/-- Does the predicate hold at some suffix (regex search without anchors)? -/
def anySuffix (p : List Char → Bool) : List Char → Bool
  | [] => p []
  | s@(_ :: rest) => p (s) || anySuffix p rest

/-- Value of a digit string (`parseInt` on an all-digits group). -/
def natOfDigits (l : List Char) : ℕ :=
  l.foldl (fun n c => 10 * n + (c.toNat - 48)) 0

/-- OCR confusion substitutions of `parsePrice`
(`O/o→0`, `I/l/|→1`, `S/s→5`, `B→8`, `G→6`, `Z→2`); the source applies the six
global replaces in sequence, which equals this single character map because no
substitution output is a later substitution input. -/
def ocrSub (c : Char) : Char :=
  if c = 'O' ∨ c = 'o' then '0'
  else if c = 'I' ∨ c = 'l' ∨ c = '|' then '1'
  else if c = 'S' ∨ c = 's' then '5'
  else if c = 'B' then '8'
  else if c = 'G' then '6'
  else if c = 'Z' then '2'
  else c

/-- JS `String.prototype.replace` with a plain (non-global) string pattern:
replaces the first occurrence only. -/
def replaceFirst : List Char → Char → Char → List Char
  | [], _, _ => []
  | c :: cs, a, b => if c = a then b :: cs else c :: replaceFirst cs a b

/-- JS `String.prototype.lastIndexOf` for a single character (`-1` if absent). -/
def lastIdxOf (a : Char) : List Char → Int
  | [] => -1
  | c :: cs =>
    let r := lastIdxOf a cs
    if 0 ≤ r then r + 1 else if c = a then 0 else -1

/-- JS `parseFloat` on the cleaned-up price string.  At its call site the input
contains only digits and dots (the preceding filter removes everything else),
so `parseFloat`'s longest-valid-prefix rule reduces to: an integer part,
optionally a dot and a fraction part, parsing stopping at any second dot;
`NaN` (when no digit is found) is `none`. -/
def parseFloatQ (s : List Char) : Option ℚ :=
  match s.dropWhile Char.isDigit with
  | c :: r =>
    if c = '.' then
      if (s.takeWhile Char.isDigit).isEmpty && (r.takeWhile Char.isDigit).isEmpty then none
      else
        some ((natOfDigits (s.takeWhile Char.isDigit) : ℚ) +
          (natOfDigits (r.takeWhile Char.isDigit) : ℚ) / 10 ^ (r.takeWhile Char.isDigit).length)
    else if (s.takeWhile Char.isDigit).isEmpty then none
    else some ((natOfDigits (s.takeWhile Char.isDigit) : ℚ))
  | [] =>
    if (s.takeWhile Char.isDigit).isEmpty then none
    else some ((natOfDigits (s.takeWhile Char.isDigit) : ℚ))

/-- `parseFloat(x) || 0`: a `NaN` result becomes 0. -/
def parseFloatOr0 (s : List Char) : ℚ :=
  match parseFloatQ s with
  | some q => q
  | none => 0

/-- `ReceiptParser.parsePrice`. -/
def parsePrice (s : List Char) : ℚ :=
  if s.isEmpty then 0
  else
    let n1 := trimL (s.filter (fun c =>
      !(decide (c = '€') || decide (c = '$') || decide (c = '£') ||
        decide (c = 'e') || decide (c = 'E'))))
    let n2 := n1.map ocrSub
    let n3 :=
      if hasChar ',' n2 && hasChar '.' n2 then
        if lastIdxOf '.' n2 < lastIdxOf ',' n2 then
          replaceFirst (n2.filter (fun c => !decide (c = '.'))) ',' '.'
        else n2.filter (fun c => !decide (c = ','))
      else if hasChar ',' n2 then replaceFirst n2 ',' '.'
      else n2
    parseFloatOr0 (n3.filter (fun c => c.isDigit || decide (c = '.')))

/-! ### Merchant identification -/

/-- One fuzzy alias pattern of the `establishments` table. -/
inductive Pat where
  | spaced (letters : List Char)
  | diaPat
  | inglesPat

/-- Case-insensitive character match against an uppercase pattern letter. -/
def upEq (x c : Char) : Bool := decide (toUpperChar x = c)

/-- Anchored match of `L1\s*L2\s*...\s*Ln` (letters separated by arbitrary
whitespace, case-insensitive). -/
def spacedAt : List Char → List Char → Bool
  | [], _ => true
  | _ :: _, [] => false
  | c :: cs, x :: xs => upEq x c && spacedAt cs (xs.dropWhile isSpaceCh)

/-- Is the next position a word boundary (end of input or a non-word char)? -/
def boundaryOk : List Char → Bool
  | [] => true
  | c :: _ => !isWordChar c

/-- Anchored match of `\bDI.?A\b` given whether the previous char is a word char. -/
def diaAt (prevWord : Bool) (s : List Char) : Bool :=
  !prevWord &&
    match s with
    | x :: y :: rest =>
      upEq x 'D' && upEq y 'I' &&
        ((match rest with
          | _ :: w :: rest3 => upEq w 'A' && boundaryOk rest3
          | _ => false) ||
         (match rest with
          | z :: rest2 => upEq z 'A' && boundaryOk rest2
          | [] => false))
    | _ => false

def diaScan : Bool → List Char → Bool
  | _, [] => false
  | prev, c :: rest => diaAt prev (c :: rest) || diaScan (isWordChar c) rest

/-- Anchored match of letters each followed by an optional literal dot
(`I\.?N\.?G\.?L\.?E\.?S`). -/
def inglesAt : List Char → List Char → Bool
  | [], _ => true
  | _ :: _, [] => false
  | c :: cs, x :: xs =>
    upEq x c && (inglesAt cs xs ||
      (match xs with
       | '.' :: ys => inglesAt cs ys
       | _ => false))

def patMatch (ft : List Char) : Pat → Bool
  | .spaced ls => anySuffix (spacedAt ls) ft
  | .diaPat => diaScan false ft
  | .inglesPat => anySuffix (inglesAt (("INGLES").data)) ft

/-- The ordered `establishments` table (`Object.entries` preserves the authored
order for these string keys). -/
def establishments : List (List Char × List Pat) :=
  [(("MERCADONA").data, [Pat.spaced (("MERCADONA").data), Pat.spaced (("MERKADONA").data)]),
   (("CARREFOUR").data, [Pat.spaced (("CARREFOUR").data), Pat.spaced (("CFR").data),
                         Pat.spaced (("CAREFUR").data)]),
   (("LIDL").data, [Pat.spaced (("LIDL").data)]),
   (("ALDI").data, [Pat.spaced (("ALDI").data)]),
   (("AHORRAMAS").data, [Pat.spaced (("AHORRAMAS").data)]),
   (("CONSUM").data, [Pat.spaced (("CONSUM").data)]),
   (("DIA").data, [Pat.diaPat]),
   (("EL CORTE INGLES").data, [Pat.spaced (("CORTEINGLES").data), Pat.inglesPat]),
   (("HIPERCOR").data, [Pat.spaced (("HIPERCOR").data)]),
   (("EROSKI").data, [Pat.spaced (("EROSKI").data)])]

/-- The source's `for ... of Object.entries(establishments)` loop with `break`:
first entry whose any pattern matches. -/
def findFirst {α : Type} (p : α → Bool) : List α → Option α
  | [] => none
  | a :: as => if p a then some a else findFirst p as

def fullTextOf (lines : List (List Char)) : List Char := toUpperL (joinSp lines)

/-- Priority-1 merchant lookup over the uppercased full text. -/
def aliasLookup (ft : List Char) : Option (List Char) :=
  (findFirst (fun e => e.2.any (patMatch ft)) establishments).map (fun e => e.1)

/-- `/\d{2,}/`: some run of two or more digits. -/
def hasTwoDigitRun : List Char → Bool :=
  anySuffix (fun s =>
    match s with
    | a :: b :: _ => a.isDigit && b.isDigit
    | _ => false)

def excludeKeywords : List (List Char) :=
  [("CALLE").data, ("AVENIDA").data, ("C/").data, ("TLF").data,
   ("TEL:").data, ("CIF").data, ("NIF").data, ("TICKET").data]

/-- Priority-2 fallback: first of the (at most 12) scanned lines that is longer
than 3 chars, has no 2+ digit run and no address/phone/tax keyword; otherwise
the sentinel. -/
def fallbackMerchant : List (List Char) → List Char
  | [] => ("Desconocido").data
  | l :: ls =>
    let u := toUpperL l
    if 3 < u.length ∧ hasTwoDigitRun u = false ∧
        excludeKeywords.any (fun k => containsSub k u) = false then trimL u
    else fallbackMerchant ls

def merchantOf (lines : List (List Char)) : List Char :=
  match aliasLookup (fullTextOf lines) with
  | some n => n
  | none => fallbackMerchant (lines.take 12)

/-! ### Date extraction -/

def isSep (c : Char) : Bool := decide (c = '-') || decide (c = '/') || decide (c = '.')

/-- Anchored match of the date regex (groups `\d{1,2}`, `\d{1,2}`, `\d{2,4}`,
separated by `-`, `/` or `.`, with `\b` on both sides) at the current position,
`prevWord` telling whether the previous character is a word character.
The greedy bounded repeats need no backtracking: each digit group is a maximal
digit run (a shorter choice would put a digit where the separator or the word
boundary must be), so the group is the full run, guarded by the length bounds. -/
def dateMatchAt (prevWord : Bool) (s : List Char) :
    Option (List Char × List Char × List Char) :=
  if prevWord then none
  else
    match s.dropWhile Char.isDigit with
    | sep1 :: r2 =>
      if 1 ≤ (s.takeWhile Char.isDigit).length ∧ (s.takeWhile Char.isDigit).length ≤ 2 ∧
          isSep sep1 = true then
        match r2.dropWhile Char.isDigit with
        | sep2 :: r4 =>
          if 1 ≤ (r2.takeWhile Char.isDigit).length ∧ (r2.takeWhile Char.isDigit).length ≤ 2 ∧
              isSep sep2 = true then
            if 2 ≤ (r4.takeWhile Char.isDigit).length ∧
                (r4.takeWhile Char.isDigit).length ≤ 4 ∧
                boundaryOk (r4.dropWhile Char.isDigit) = true then
              some (s.takeWhile Char.isDigit, r2.takeWhile Char.isDigit,
                r4.takeWhile Char.isDigit)
            else none
          else none
        | [] => none
      else none
    | [] => none

/-- Leftmost match of the date regex in a line. -/
def dateScan : Bool → List Char → Option (List Char × List Char × List Char)
  | _, [] => none
  | prev, c :: rest =>
    match dateMatchAt prev (c :: rest) with
    | some g => some g
    | none => dateScan (isWordChar c) rest

/-- `padStart(2, '0')`. -/
def padStart2 (l : List Char) : List Char := List.replicate (2 - l.length) '0' ++ l

/-- Normalization of the matched `(day, month, year)` groups: swap day/month when
the month value exceeds 12, expand a 2-digit year with `"20"`, zero-pad, and
format as `year-month-day`. -/
def normalizeDate : List Char × List Char × List Char → List Char
  | (d, m, y) =>
    let p := if 12 < natOfDigits m then (m, d) else (d, m)
    let y2 := if y.length = 2 then '2' :: '0' :: y else y
    y2 ++ '-' :: padStart2 p.2 ++ '-' :: padStart2 p.1

/-- The source's date loop: first `some` over the lines in order. -/
def firstSome {α β : Type} (f : α → Option β) : List α → Option β
  | [] => none
  | a :: as =>
    match f a with
    | some b => some b
    | none => firstSome f as

def dateOf (lines : List (List Char)) : Option (List Char) :=
  firstSome (fun l => (dateScan false l).map normalizeDate) lines

/-! ### Item extraction -/

/-- Anchored match of `\d+[.,]\d{2,hi}` at the current position, returning the
matched token.  `\d+` is the maximal digit run (shorter choices leave a digit
where `[.,]` must match), the fraction is the greedy `min hi` prefix of the
following run, needing at least 2 digits. -/
def priceTokAt (hi : Nat) (s : List Char) : Option (List Char) :=
  if (s.takeWhile Char.isDigit).isEmpty then none
  else
    match s.dropWhile Char.isDigit with
    | sep :: r2 =>
      if decide (sep = ',') || decide (sep = '.') then
        if 2 ≤ ((r2.takeWhile Char.isDigit).take hi).length then
          some (s.takeWhile Char.isDigit ++ sep :: (r2.takeWhile Char.isDigit).take hi)
        else none
      else none
    | [] => none

/-- `[...line.matchAll(/(\d+[.,]\d{2,3})/g)]`: all non-overlapping matches,
scanning left to right, with their start offsets.  The fuel argument (at least
the remaining length plus one) only bounds the iteration; every step consumes
at least one character. -/
def priceMatchesGo : Nat → List Char → Nat → List (List Char × Nat)
  | 0, _, _ => []
  | _ + 1, [], _ => []
  | fuel + 1, c :: rest, i =>
    match priceTokAt 3 (c :: rest) with
    | some tok => (tok, i) :: priceMatchesGo fuel (rest.drop (tok.length - 1)) (i + tok.length)
    | none => priceMatchesGo fuel rest (i + 1)

def priceMatches (line : List Char) : List (List Char × Nat) :=
  priceMatchesGo (line.length + 1) line 0

/-- Anchored `\d+[.,]\d{2}` followed by at least 2 digits available
(the fragment of `isLikelyItem`'s regex after `^\d+.+`). -/
def threePartAt (s : List Char) : Bool :=
  !(s.takeWhile Char.isDigit).isEmpty &&
    match s.dropWhile Char.isDigit with
    | sep :: r2 =>
      (decide (sep = ',') || decide (sep = '.')) &&
        decide (2 ≤ (r2.takeWhile Char.isDigit).length)
    | [] => false

def likelySuffix : List Char → Bool
  | [] => false
  | s@(_ :: rest) => threePartAt s || likelySuffix rest

/-- `ReceiptParser.isLikelyItem`: `/^\d+.+\d+[.,]\d{2}/.test(line)`.  The match
succeeds iff the first char is a digit and the trailing price shape occurs at
some offset ≥ 2 (`^\d+` eats at least one char, `.+` at least one more; `.+`
absorbs anything in between, including further digits). -/
def isLikelyItem : List Char → Bool
  | c0 :: _ :: rest2 => c0.isDigit && likelySuffix rest2
  | _ => false

def noiseKeywords : List (List Char) :=
  [("IVA").data, ("FACTURA").data, ("TICKET").data, ("TELÉFONO").data,
   ("GRACIAS").data, ("C.I.F").data, ("N.I.F").data, ("PÁGINA").data,
   ("CHANGE").data, ("CAMBIO").data, ("ENTREGADO").data, ("EFECTIVO").data]

/-- `ReceiptParser.isNoise`. -/
def isNoise (line : List Char) : Bool :=
  noiseKeywords.any (fun k => decide (toUpperL line = k)) ||
    (containsSub (("TOTAL").data) (toUpperL line) && !line.any Char.isDigit)

def summaryKeywords : List (List Char) :=
  [("TOTAL").data, ("SUBTOTAL").data, ("IMPORTE").data, ("TARJETA").data,
   ("EFECTIVO").data, ("PAGO").data, ("PAGAR").data, ("IVA").data,
   ("I.V.A").data, ("BASE").data, ("IMPONIBLE").data, ("CUOTA").data,
   ("RECARGO").data, ("DESCUENTO").data, ("REDONDEO").data, ("VALOR").data,
   ("OPERACION").data, ("TERMINAL").data, ("AUTORIZ").data, ("COPIA").data,
   ("CLIENTE").data]

/-- One alternative of the garbage regex: exactly `a` digits, a separator,
exactly 2 digits, a separator, then at least 2 digits. -/
def garbChk (a : Nat) (s : List Char) : Bool :=
  decide ((s.take a).length = a) && (s.take a).all Char.isDigit &&
    match s.drop a with
    | sep1 :: r1 =>
      isSep sep1 && decide ((r1.take 2).length = 2) && (r1.take 2).all Char.isDigit &&
        match r1.drop 2 with
        | sep2 :: r2 => isSep sep2 && decide (2 ≤ (r2.takeWhile Char.isDigit).length)
        | [] => false
    | [] => false

/-- The garbage test: a date shape (2-4 digits, a `-`/`/`/`.` separator, exactly
2 digits, a separator, 2-4 digits) anywhere, or a run of 9 or more digits. -/
def isGarbage (line : List Char) : Bool :=
  anySuffix (fun s => garbChk 2 s || garbChk 3 s || garbChk 4 s) line ||
    anySuffix (fun s => decide (9 ≤ (s.takeWhile Char.isDigit).length)) line

/-- Description derivation: `line.substring(0, firstMatch.index).trim()`, then
`replace(/^\d+\s+/, '')`, then `replace(/^\d+/, '').trim()`. -/
def stripQtySp (l : List Char) : List Char :=
  if !(l.takeWhile Char.isDigit).isEmpty &&
      !((l.dropWhile Char.isDigit).takeWhile isSpaceCh).isEmpty then
    (l.dropWhile Char.isDigit).dropWhile isSpaceCh
  else l

def descOf (line : List Char) (idx : Nat) : List Char :=
  trimL ((stripQtySp (trimL (line.take idx))).dropWhile Char.isDigit)

/-- The stored unit price: second-to-last match when there are two or more,
else the only one. -/
def storedPrice (all : List (List Char × Nat)) : ℚ :=
  parsePrice ((all.getD (if 2 ≤ all.length then all.length - 2 else all.length - 1)
    (([] : List Char), 0)).1)

/-- One iteration of the item-extraction loop: the produced item (if the line
is accepted) together with the amount (`parsePrice` of the last match) added to
the running calculated total. -/
def lineCandidate (line : List Char) : Option (LineItem × ℚ) :=
  if isNoise line && !isLikelyItem line then none
  else
    match priceMatches line with
    | [] => none
    | m :: ms =>
      if 1 < (descOf line m.2).length ∧ 0 < storedPrice (m :: ms) ∧
          storedPrice (m :: ms) < 1000 ∧
          summaryKeywords.any (fun k => containsSub k (toUpperL line)) = false ∧
          isGarbage line = false then
        some (⟨descOf line m.2, storedPrice (m :: ms), ("Otros").data⟩,
          parsePrice (((m :: ms).getD ((m :: ms).length - 1) (([] : List Char), 0)).1))
      else none

/-- The item-extraction loop: ordered items and the running calculated total. -/
def itemsCalc (lines : List (List Char)) : List LineItem × ℚ :=
  lines.foldl (fun acc l =>
    match lineCandidate l with
    | some (it, amt) => (acc.1 ++ [it], acc.2 + amt)
    | none => acc) (([] : List LineItem), 0)

/-! ### Total detection and reconciliation -/

def totalKeywords : List (List Char) :=
  [("TOTAL").data, ("IMPORTE").data, ("PAGAR").data, ("A PAGAR").data,
   ("LIQUIDO").data]

/-- First match of `/(\d+[.,]\d{2})/` in the line. -/
def firstTotalTok : List Char → Option (List Char)
  | [] => none
  | s@(_ :: rest) =>
    match priceTokAt 2 s with
    | some tok => some tok
    | none => firstTotalTok rest

/-- The total-detection loop: the value of the last total-keyword line (not
containing `SUBTOTAL`) whose first price token parses; `acc` starts at 0. -/
def detectTotal : List (List Char) → ℚ → ℚ
  | [], acc => acc
  | l :: ls, acc =>
    detectTotal ls
      (if totalKeywords.any (fun k => containsSub k (toUpperL l)) &&
          !containsSub (("SUBTOTAL").data) (toUpperL l) then
        match firstTotalTok l with
        | some tok => parsePrice tok
        | none => acc
      else acc)

/-- JS `Number.prototype.toFixed(2)` (round to nearest, ties away from zero)
re-read by `parseFloat`, on the non-negative totals arising here. -/
def round2 (q : ℚ) : ℚ := ((⌊q * 100 + 1 / 2⌋ : ℤ) : ℚ) / 100

/-- The reconciliation step:
`if (total === 0 || (calc > 0 && |total - calc| > 30)) total = max(total, round2 calc)`. -/
def reconcileTotal (detected calcSum : ℚ) : ℚ :=
  if detected = 0 ∨ (0 < calcSum ∧ 30 < |detected - calcSum|) then
    max detected (round2 calcSum)
  else detected

/-- `Math.max(...items.map(i => i.price))` (only reached on nonempty items;
the `[]` value is never used). -/
def maxItemPrice : List LineItem → ℚ
  | [] => 0
  | it :: its => its.foldl (fun mx i => max mx i.price) it.price

/-- `ReceiptParser.parse`.  `today` is the current processing date string. -/
def parse (today : List Char) (rawText : List Char) : ReceiptDraft :=
  let lines := linesOf rawText
  let t1 := reconcileTotal (detectTotal lines 0) ((itemsCalc lines).2)
  { merchant := merchantOf lines
    date := (dateOf lines).getD today
    total := if t1 = 0 ∧ (itemsCalc lines).1 ≠ [] then maxItemPrice ((itemsCalc lines).1) else t1
    items := (itemsCalc lines).1 }

end ReceiptParser

/-- Syntactic `YYYY-MM-DD` check (4-digit year, 2-digit month, 2-digit day). -/
def isIsoDate (s : List Char) : Bool :=
  match s with
  | [y1, y2, y3, y4, c1, m1, m2, c2, d1, d2] =>
    y1.isDigit && y2.isDigit && y3.isDigit && y4.isDigit && decide (c1 = '-') &&
      m1.isDigit && m2.isDigit && decide (c2 = '-') && d1.isDigit && d2.isDigit
  | _ => false

/-- The 3-digit-year variant `YYY-MM-DD` that the engine can also emit. -/
def isIso3Date (s : List Char) : Bool :=
  match s with
  | [y1, y2, y3, c1, m1, m2, c2, d1, d2] =>
    y1.isDigit && y2.isDigit && y3.isDigit && decide (c1 = '-') &&
      m1.isDigit && m2.isDigit && decide (c2 = '-') && d1.isDigit && d2.isDigit
  | _ => false

/-- The shape of every token handed to `parsePrice` during `parse`: a nonempty
digit run, a single `,` or `.`, and a 2-to-`hi`-digit fraction; on such a token
the OCR substitution map is the identity, the both-separators branch is not
taken, and the normalized value reads the single separator as the decimal
point. -/
def tokSpec (hi : Nat) (tok : List Char) : Prop :=
  ∃ ds sep fs, tok = ds ++ sep :: fs ∧ ds ≠ [] ∧ (∀ c ∈ ds, c.isDigit = true) ∧
    (sep = ',' ∨ sep = '.') ∧ (∀ c ∈ fs, c.isDigit = true) ∧
    2 ≤ fs.length ∧ fs.length ≤ hi ∧
    tok.map ReceiptParser.ocrSub = tok ∧
    ¬(ReceiptParser.hasChar ',' tok = true ∧ ReceiptParser.hasChar '.' tok = true) ∧
    ReceiptParser.parsePrice tok =
      (ReceiptParser.natOfDigits ds : ℚ) + (ReceiptParser.natOfDigits fs : ℚ) / 10 ^ fs.length

/-! ## Helper lemmas -/

namespace ReceiptParser

lemma filter_eq_self_of {p : Char → Bool} :
    ∀ {l : List Char}, (∀ c ∈ l, p c = true) → l.filter p = l := by
  intro l
  induction l with
  | nil => intro _; rfl
  | cons a as ih =>
    intro h
    have ha := h a (by simp)
    simp [List.filter, ha, ih (fun c hc => h c (by simp [hc]))]

lemma map_eq_self_of {f : Char → Char} :
    ∀ {l : List Char}, (∀ c ∈ l, f c = c) → l.map f = l := by
  intro l
  induction l with
  | nil => intro _; rfl
  | cons a as ih =>
    intro h
    simp [h a (by simp), ih (fun c hc => h c (by simp [hc]))]

lemma takeWhile_eq_self_of {p : Char → Bool} :
    ∀ {l : List Char}, (∀ c ∈ l, p c = true) → l.takeWhile p = l := by
  intro l
  induction l with
  | nil => intro _; rfl
  | cons a as ih =>
    intro h
    simp [List.takeWhile_cons, h a (by simp), ih (fun c hc => h c (by simp [hc]))]

lemma dropWhile_eq_self_of {p : Char → Bool} {l : List Char}
    (h : ∀ c ∈ l, p c = false) : l.dropWhile p = l := by
  cases l with
  | nil => rfl
  | cons a as => simp [List.dropWhile_cons, h a (by simp)]

lemma trimL_eq_self_of {l : List Char} (h : ∀ c ∈ l, isSpaceCh c = false) :
    trimL l = l := by
  unfold trimL
  rw [dropWhile_eq_self_of h, dropWhile_eq_self_of (by intro c hc; exact h c (by simpa using hc)),
    List.reverse_reverse]

lemma takeWhile_append_stop {p : Char → Bool} {x : Char} (hx : p x = false) :
    ∀ (l r : List Char), (∀ c ∈ l, p c = true) →
      (l ++ x :: r).takeWhile p = l ∧ (l ++ x :: r).dropWhile p = x :: r := by
  intro l
  induction l with
  | nil =>
    intro r _
    constructor
    · simp [List.takeWhile_cons, hx]
    · simp [List.dropWhile_cons, hx]
  | cons a as ih =>
    intro r h
    have ha := h a (by simp)
    obtain ⟨h1, h2⟩ := ih r (fun c hc => h c (by simp [hc]))
    constructor
    · simp [List.takeWhile_cons, ha, h1]
    · simp [List.dropWhile_cons, ha, h2]

lemma hasChar_eq_false_of {a : Char} :
    ∀ {l : List Char}, (∀ c ∈ l, c ≠ a) → hasChar a l = false := by
  intro l
  induction l with
  | nil => intro _; rfl
  | cons c cs ih =>
    intro h
    simp [hasChar, h c (by simp), ih (fun d hd => h d (by simp [hd]))]

lemma hasChar_of_mem {a : Char} :
    ∀ {l : List Char}, a ∈ l → hasChar a l = true := by
  intro l
  induction l with
  | nil => intro h; simp at h
  | cons c cs ih =>
    intro h
    rcases (by simpa using h : a = c ∨ a ∈ cs) with h1 | h1
    · simp [hasChar, h1]
    · simp [hasChar, ih h1]

lemma replaceFirst_append {a b : Char} :
    ∀ {l r : List Char}, (∀ c ∈ l, c ≠ a) →
      replaceFirst (l ++ a :: r) a b = l ++ b :: r := by
  intro l
  induction l with
  | nil => intro r _; simp [replaceFirst]
  | cons c cs ih =>
    intro r h
    simp [replaceFirst, h c (by simp), ih (fun d hd => h d (by simp [hd]))]

lemma digit_ocrSub {c : Char} (h : c.isDigit = true) : ocrSub c = c := by
  unfold ocrSub
  split_ifs with h1 h2 h3 h4 h5 h6
  · rcases h1 with rfl | rfl <;> exact absurd h (by decide)
  · rcases h2 with rfl | rfl | rfl <;> exact absurd h (by decide)
  · rcases h3 with rfl | rfl <;> exact absurd h (by decide)
  · exact absurd h (by rw [h4]; decide)
  · exact absurd h (by rw [h5]; decide)
  · exact absurd h (by rw [h6]; decide)
  · rfl

lemma digit_not_space {c : Char} (h : c.isDigit = true) : isSpaceCh c = false := by
  unfold isSpaceCh
  have h1 : c ≠ ' ' := by rintro rfl; exact absurd h (by decide)
  have h2 : c ≠ '\t' := by rintro rfl; exact absurd h (by decide)
  have h3 : c ≠ '\n' := by rintro rfl; exact absurd h (by decide)
  have h4 : c ≠ '\r' := by rintro rfl; exact absurd h (by decide)
  have h5 : c ≠ '\x0B' := by rintro rfl; exact absurd h (by decide)
  have h6 : c ≠ '\x0C' := by rintro rfl; exact absurd h (by decide)
  simp [h1, h2, h3, h4, h5, h6]

lemma sep_not_space {c : Char} (h : c = ',' ∨ c = '.') : isSpaceCh c = false := by
  rcases h with rfl | rfl <;> decide

lemma digit_not_comma_dot {c : Char} (h : c.isDigit = true) : c ≠ ',' ∧ c ≠ '.' := by
  constructor <;> rintro rfl <;> exact absurd h (by decide)

lemma digit_not_currency {c : Char} (h : c.isDigit = true) :
    (!(decide (c = '€') || decide (c = '$') || decide (c = '£') ||
      decide (c = 'e') || decide (c = 'E'))) = true := by
  have h1 : c ≠ '€' := by rintro rfl; exact absurd h (by decide)
  have h2 : c ≠ '$' := by rintro rfl; exact absurd h (by decide)
  have h3 : c ≠ '£' := by rintro rfl; exact absurd h (by decide)
  have h4 : c ≠ 'e' := by rintro rfl; exact absurd h (by decide)
  have h5 : c ≠ 'E' := by rintro rfl; exact absurd h (by decide)
  simp [h1, h2, h3, h4, h5]

end ReceiptParser

namespace ReceiptParser

lemma parseFloatQ_nonneg {s : List Char} {q : ℚ} (h : parseFloatQ s = some q) : 0 ≤ q := by
  rw [parseFloatQ] at h
  split at h
  · split at h
    · split at h
      · exact absurd h (by simp)
      · rcases Option.some_inj.mp h with rfl
        positivity
    · split at h
      · exact absurd h (by simp)
      · rcases Option.some_inj.mp h with rfl
        positivity
  · split at h
    · exact absurd h (by simp)
    · rcases Option.some_inj.mp h with rfl
      positivity

lemma parseFloatOr0_nonneg (s : List Char) : 0 ≤ parseFloatOr0 s := by
  rw [parseFloatOr0]
  cases hq : parseFloatQ s with
  | none => exact le_refl 0
  | some q => exact parseFloatQ_nonneg hq

lemma parsePrice_nonneg (s : List Char) : 0 ≤ parsePrice s := by
  rw [parsePrice]
  split
  · exact le_refl 0
  · exact parseFloatOr0_nonneg _

lemma isEmpty_false_of_ne_nil {l : List Char} (h : l ≠ []) : l.isEmpty = false := by
  cases l with
  | nil => exact absurd rfl h
  | cons a as => rfl

lemma parseFloatQ_dotToken {ds fs : List Char} (hds : ds ≠ [])
    (hdd : ∀ c ∈ ds, c.isDigit = true) (hfd : ∀ c ∈ fs, c.isDigit = true) :
    parseFloatQ (ds ++ '.' :: fs) =
      some ((natOfDigits ds : ℚ) + (natOfDigits fs : ℚ) / 10 ^ fs.length) := by
  obtain ⟨htw, hdw⟩ :=
    takeWhile_append_stop (by decide : Char.isDigit '.' = false) ds fs hdd
  have hfp : fs.takeWhile Char.isDigit = fs := takeWhile_eq_self_of hfd
  have hie : ds.isEmpty = false := isEmpty_false_of_ne_nil hds
  rw [parseFloatQ, hdw, htw]
  simp [hfp, hie]

lemma parsePrice_token {ds fs : List Char} {sep : Char} (hds : ds ≠ [])
    (hdd : ∀ c ∈ ds, c.isDigit = true) (hsep : sep = ',' ∨ sep = '.')
    (hfd : ∀ c ∈ fs, c.isDigit = true) :
    parsePrice (ds ++ sep :: fs) =
      (natOfDigits ds : ℚ) + (natOfDigits fs : ℚ) / 10 ^ fs.length := by
  have hne : (ds ++ sep :: fs).isEmpty = false := by
    cases ds with
    | nil => rfl
    | cons a as => rfl
  have hcur : (ds ++ sep :: fs).filter (fun c =>
      !(decide (c = '€') || decide (c = '$') || decide (c = '£') ||
        decide (c = 'e') || decide (c = 'E'))) = ds ++ sep :: fs := by
    apply filter_eq_self_of
    intro c hc
    rcases List.mem_append.mp hc with hc | hc
    · exact digit_not_currency (hdd c hc)
    · rcases List.mem_cons.mp hc with rfl | hc
      · rcases hsep with rfl | rfl <;> decide
      · exact digit_not_currency (hfd c hc)
  have htr : trimL (ds ++ sep :: fs) = ds ++ sep :: fs := by
    apply trimL_eq_self_of
    intro c hc
    rcases List.mem_append.mp hc with hc | hc
    · exact digit_not_space (hdd c hc)
    · rcases List.mem_cons.mp hc with rfl | hc
      · exact sep_not_space hsep
      · exact digit_not_space (hfd c hc)
  have hmap : (ds ++ sep :: fs).map ocrSub = ds ++ sep :: fs := by
    apply map_eq_self_of
    intro c hc
    rcases List.mem_append.mp hc with hc | hc
    · exact digit_ocrSub (hdd c hc)
    · rcases List.mem_cons.mp hc with rfl | hc
      · rcases hsep with rfl | rfl <;> decide
      · exact digit_ocrSub (hfd c hc)
  have hfinal : (ds ++ '.' :: fs).filter (fun c => c.isDigit || decide (c = '.')) =
      ds ++ '.' :: fs := by
    apply filter_eq_self_of
    intro c hc
    rcases List.mem_append.mp hc with hc | hc
    · simp [hdd c hc]
    · rcases List.mem_cons.mp hc with rfl | hc
      · decide
      · simp [hfd c hc]
  rcases hsep with rfl | rfl
  · have hnodot : hasChar '.' (ds ++ ',' :: fs) = false := by
      apply hasChar_eq_false_of
      intro c hc
      rcases List.mem_append.mp hc with hc | hc
      · exact (digit_not_comma_dot (hdd c hc)).2
      · rcases List.mem_cons.mp hc with rfl | hc
        · decide
        · exact (digit_not_comma_dot (hfd c hc)).2
    have hyescomma : hasChar ',' (ds ++ ',' :: fs) = true :=
      hasChar_of_mem (by simp)
    have hrepl : replaceFirst (ds ++ ',' :: fs) ',' '.' = ds ++ '.' :: fs :=
      replaceFirst_append (fun c hc => (digit_not_comma_dot (hdd c hc)).1)
    rw [parsePrice, hne]
    simp only [Bool.false_eq_true, if_false, hcur, htr, hmap, hnodot, hyescomma,
      Bool.true_and, Bool.and_false, if_false, if_true, hrepl, hfinal]
    rw [parseFloatOr0, parseFloatQ_dotToken hds hdd hfd]
  · have hnocomma : hasChar ',' (ds ++ '.' :: fs) = false := by
      apply hasChar_eq_false_of
      intro c hc
      rcases List.mem_append.mp hc with hc | hc
      · exact (digit_not_comma_dot (hdd c hc)).1
      · rcases List.mem_cons.mp hc with rfl | hc
        · decide
        · exact (digit_not_comma_dot (hfd c hc)).1
    rw [parsePrice, hne]
    simp only [Bool.false_eq_true, if_false, hcur, htr, hmap, hnocomma,
      Bool.false_and, if_false, hfinal]
    rw [parseFloatOr0, parseFloatQ_dotToken hds hdd hfd]

end ReceiptParser

namespace ReceiptParser

lemma priceTokAt_shape {hi : Nat} {s tok : List Char} (h : priceTokAt hi s = some tok) :
    ∃ ds sep fs, tok = ds ++ sep :: fs ∧ ds ≠ [] ∧ (∀ c ∈ ds, c.isDigit = true) ∧
      (sep = ',' ∨ sep = '.') ∧ (∀ c ∈ fs, c.isDigit = true) ∧
      2 ≤ fs.length ∧ fs.length ≤ hi := by
  rw [priceTokAt] at h
  split at h
  · exact absurd h (by simp)
  next hne =>
    split at h
    next sep r2 heq =>
      split at h
      next hsep =>
        split at h
        next hlen =>
          rcases Option.some_inj.mp h with rfl
          refine ⟨s.takeWhile Char.isDigit, sep, (r2.takeWhile Char.isDigit).take hi,
            rfl, ?_, ?_, ?_, ?_, hlen, ?_⟩
          · intro hnil
            rw [hnil] at hne
            exact hne rfl
          · intro c hc
            exact List.mem_takeWhile_imp hc
          · simpa using hsep
          · intro c hc
            exact List.mem_takeWhile_imp (List.mem_of_mem_take hc)
          · rw [List.length_take]
            exact min_le_left _ _
        next => exact absurd h (by simp)
      next => exact absurd h (by simp)
    next => exact absurd h (by simp)

lemma priceMatchesGo_mem :
    ∀ (fuel : Nat) (s : List Char) (i : Nat) (tok : List Char) (j : Nat),
      (tok, j) ∈ priceMatchesGo fuel s i → ∃ t, priceTokAt 3 t = some tok := by
  intro fuel
  induction fuel with
  | zero =>
    intro s i tok j h
    simp [priceMatchesGo] at h
  | succ n ih =>
    intro s i tok j h
    cases s with
    | nil => simp [priceMatchesGo] at h
    | cons c rest =>
      rw [priceMatchesGo] at h
      rcases htk : priceTokAt 3 (c :: rest) with _ | t
      · rw [htk] at h
        exact ih rest (i + 1) tok j h
      · rw [htk] at h
        rcases List.mem_cons.mp h with h1 | h1
        · injection h1 with h2 h3
          subst h2
          exact ⟨c :: rest, htk⟩
        · exact ih _ _ tok j h1

lemma firstTotalTok_mem :
    ∀ {line tok : List Char}, firstTotalTok line = some tok →
      ∃ t, priceTokAt 2 t = some tok := by
  intro line
  induction line with
  | nil =>
    intro tok h
    simp [firstTotalTok] at h
  | cons c rest ih =>
    intro tok h
    rw [firstTotalTok] at h
    rcases htk : priceTokAt 2 (c :: rest) with _ | t
    · rw [htk] at h
      exact ih h
    · rw [htk] at h
      rcases Option.some_inj.mp h with rfl
      exact ⟨c :: rest, htk⟩

end ReceiptParser

lemma tokSpec_of_priceTokAt {hi : Nat} {t tok : List Char}
    (h : ReceiptParser.priceTokAt hi t = some tok) : tokSpec hi tok := by
  obtain ⟨ds, sep, fs, rfl, hds, hdd, hsep, hfd, hlen2, hlenhi⟩ :=
    ReceiptParser.priceTokAt_shape h
  refine ⟨ds, sep, fs, rfl, hds, hdd, hsep, hfd, hlen2, hlenhi, ?_, ?_, ?_⟩
  · apply ReceiptParser.map_eq_self_of
    intro c hc
    rcases List.mem_append.mp hc with hc | hc
    · exact ReceiptParser.digit_ocrSub (hdd c hc)
    · rcases List.mem_cons.mp hc with rfl | hc
      · rcases hsep with rfl | rfl <;> decide
      · exact ReceiptParser.digit_ocrSub (hfd c hc)
  · rcases hsep with rfl | rfl
    · rintro ⟨_, hdot⟩
      have : ReceiptParser.hasChar '.' (ds ++ ',' :: fs) = false := by
        apply ReceiptParser.hasChar_eq_false_of
        intro c hc
        rcases List.mem_append.mp hc with hc | hc
        · exact (ReceiptParser.digit_not_comma_dot (hdd c hc)).2
        · rcases List.mem_cons.mp hc with rfl | hc
          · decide
          · exact (ReceiptParser.digit_not_comma_dot (hfd c hc)).2
      rw [this] at hdot
      exact Bool.false_ne_true hdot
    · rintro ⟨hcomma, _⟩
      have : ReceiptParser.hasChar ',' (ds ++ '.' :: fs) = false := by
        apply ReceiptParser.hasChar_eq_false_of
        intro c hc
        rcases List.mem_append.mp hc with hc | hc
        · exact (ReceiptParser.digit_not_comma_dot (hdd c hc)).1
        · rcases List.mem_cons.mp hc with rfl | hc
          · decide
          · exact (ReceiptParser.digit_not_comma_dot (hfd c hc)).1
      rw [this] at hcomma
      exact Bool.false_ne_true hcomma
  · exact ReceiptParser.parsePrice_token hds hdd hsep hfd

namespace ReceiptParser

lemma parse_items (today raw : List Char) :
    (parse today raw).items = (itemsCalc (linesOf raw)).1 := rfl

lemma parse_date (today raw : List Char) :
    (parse today raw).date = (dateOf (linesOf raw)).getD today := rfl

lemma parse_total (today raw : List Char) :
    (parse today raw).total =
      if reconcileTotal (detectTotal (linesOf raw) 0) ((itemsCalc (linesOf raw)).2) = 0 ∧
          (itemsCalc (linesOf raw)).1 ≠ [] then
        maxItemPrice ((itemsCalc (linesOf raw)).1)
      else reconcileTotal (detectTotal (linesOf raw) 0) ((itemsCalc (linesOf raw)).2) := rfl

lemma lineCandidate_some {line : List Char} {it : LineItem} {amt : ℚ}
    (h : lineCandidate line = some (it, amt)) :
    ∃ m ms, priceMatches line = m :: ms ∧
      it.price = storedPrice (m :: ms) ∧
      amt = parsePrice (((m :: ms).getD ((m :: ms).length - 1) (([] : List Char), 0)).1) ∧
      0 < it.price ∧ it.price < 1000 ∧ 1 < it.description.length := by
  rw [lineCandidate] at h
  split at h
  · exact absurd h (by simp)
  · split at h
    next => exact absurd h (by simp)
    next m ms heq =>
      split at h
      next hcond =>
        have h' := Option.some_inj.mp h
        injection h' with h1 h2
        subst h1
        subst h2
        exact ⟨m, ms, heq, rfl, rfl, hcond.2.1, hcond.2.2.1, hcond.1⟩
      next => exact absurd h (by simp)

lemma itemsCalc_fold_spec :
    ∀ (lines : List (List Char)) (acc : List LineItem × ℚ),
      (∀ it ∈ acc.1, 0 < it.price ∧ it.price < 1000 ∧ 1 < it.description.length) →
      0 ≤ acc.2 →
      (∀ it ∈ (lines.foldl (fun acc l =>
          match lineCandidate l with
          | some (it, amt) => (acc.1 ++ [it], acc.2 + amt)
          | none => acc) acc).1,
        0 < it.price ∧ it.price < 1000 ∧ 1 < it.description.length) ∧
      0 ≤ (lines.foldl (fun acc l =>
          match lineCandidate l with
          | some (it, amt) => (acc.1 ++ [it], acc.2 + amt)
          | none => acc) acc).2 := by
  intro lines
  induction lines with
  | nil => intro acc h1 h2; exact ⟨h1, h2⟩
  | cons l ls ih =>
    intro acc h1 h2
    rw [List.foldl_cons]
    rcases hlc : lineCandidate l with _ | p
    · exact ih acc h1 h2
    · rcases p with ⟨it, amt⟩
      obtain ⟨m, ms, hpm, hpr, ham, hplt, hpgt, hdl⟩ := lineCandidate_some hlc
      apply ih
      · intro x hx
        rcases List.mem_append.mp hx with hx | hx
        · exact h1 x hx
        · rcases List.mem_singleton.mp hx with rfl
          exact ⟨hplt, hpgt, hdl⟩
      · have : 0 ≤ amt := by
          rw [ham]
          exact parsePrice_nonneg _
        have := add_nonneg h2 this
        simpa using this

lemma itemsCalc_items_spec (lines : List (List Char)) :
    ∀ it ∈ (itemsCalc lines).1,
      0 < it.price ∧ it.price < 1000 ∧ 1 < it.description.length :=
  (itemsCalc_fold_spec lines (([] : List LineItem), 0) (by simp) le_rfl).1

lemma itemsCalc_nonneg (lines : List (List Char)) : 0 ≤ (itemsCalc lines).2 :=
  (itemsCalc_fold_spec lines (([] : List LineItem), 0) (by simp) le_rfl).2

lemma detectTotal_nonneg : ∀ (lines : List (List Char)) (acc : ℚ),
    0 ≤ acc → 0 ≤ detectTotal lines acc := by
  intro lines
  induction lines with
  | nil => intro acc h; exact h
  | cons l ls ih =>
    intro acc h
    rw [detectTotal]
    apply ih
    split
    · rcases firstTotalTok l with _ | tok
      · exact h
      · exact parsePrice_nonneg _
    · exact h

lemma round2_nonneg {q : ℚ} (h : 0 ≤ q) : 0 ≤ round2 q := by
  rw [round2]
  apply div_nonneg _ (by norm_num)
  have : (0 : ℚ) ≤ q * 100 + 1 / 2 := by positivity
  exact_mod_cast Int.le_floor.mpr (by simpa using this)

lemma round2_zero : round2 0 = 0 := by
  with_unfolding_all decide

lemma reconcileTotal_nonneg {d c : ℚ} (hd : 0 ≤ d) :
    0 ≤ reconcileTotal d c := by
  rw [reconcileTotal]
  split
  · exact le_trans hd (le_max_left _ _)
  · exact hd

lemma le_foldl_maxPrice : ∀ (its : List LineItem) (m : ℚ),
    m ≤ its.foldl (fun mx i => max mx i.price) m := by
  intro its
  induction its with
  | nil => intro m; exact le_rfl
  | cons i is ih =>
    intro m
    rw [List.foldl_cons]
    exact le_trans (le_max_left _ _) (ih _)

end ReceiptParser

/-! ## Claim theorems -/

/-- Claim C1: on the input whose trimmed non-empty lines are
`["MERCADONA S.A.", "01/02/2024", "2 PAN 0,50 1,00", "TOTAL 1,00"]`, `parse`
returns merchant `"MERCADONA"`, date `"2024-02-01"`, exactly one item
`{description "PAN", price 0.50}` and total `1.00` (for any processing date). -/
theorem c1_end_to_end :
    ReceiptParser.linesOf
        (("MERCADONA S.A.\n01/02/2024\n2 PAN 0,50 1,00\nTOTAL 1,00").data) =
      [("MERCADONA S.A.").data, ("01/02/2024").data, ("2 PAN 0,50 1,00").data,
        ("TOTAL 1,00").data] ∧
    ∀ today, ReceiptParser.parse today
        (("MERCADONA S.A.\n01/02/2024\n2 PAN 0,50 1,00\nTOTAL 1,00").data) =
      ⟨("MERCADONA").data, ("2024-02-01").data, 1,
        [⟨("PAN").data, 1 / 2, ("Otros").data⟩]⟩ :=
  ⟨by with_unfolding_all rfl, fun _ => by with_unfolding_all rfl⟩

/-- Claim C5: the date extractor takes the first matching line, swaps day and
month when the month group exceeds 12, prefixes a 2-digit year with `"20"` and
zero-pads; `05/13/24` gives `2024-05-13` (swap applied), `13/05/24` gives
`2024-05-13` (no swap), `1/2/2024` is zero-padded, and with two date lines the
first wins. -/
theorem c5_date_normalization (today : List Char) :
    (ReceiptParser.parse today (("05/13/24").data)).date = ("2024-05-13").data ∧
    (ReceiptParser.parse today (("13/05/24").data)).date = ("2024-05-13").data ∧
    (ReceiptParser.parse today (("1/2/2024").data)).date = ("2024-02-01").data ∧
    (ReceiptParser.parse today (("13/05/24\n01/02/25").data)).date = ("2024-05-13").data :=
  ⟨by with_unfolding_all rfl, by with_unfolding_all rfl, by with_unfolding_all rfl,
    by with_unfolding_all rfl⟩

/-- Claim C8: `parse` is a total function (it returns a draft for every input;
the draft's total is never negative), and on the empty input it returns the
all-default draft: the `'Desconocido'` merchant sentinel (the source's literal
for the spec's "Unknown"), the current processing date, total 0 and no items. -/
theorem c8_empty_and_total :
    (∀ today raw, 0 ≤ (ReceiptParser.parse today raw).total) ∧
    (∀ today, ReceiptParser.parse today [] =
      ⟨("Desconocido").data, today, 0, []⟩) := by
  constructor
  · intro today raw
    rw [ReceiptParser.parse_total]
    split
    next hcond =>
      obtain ⟨-, hne⟩ := hcond
      rcases hits : (ReceiptParser.itemsCalc (ReceiptParser.linesOf raw)).1 with _ | ⟨it, its⟩
      · exact absurd hits hne
      · rw [ReceiptParser.maxItemPrice]
        have hmem : it ∈ (ReceiptParser.itemsCalc (ReceiptParser.linesOf raw)).1 := by
          rw [hits]; simp
        have h0 := (ReceiptParser.itemsCalc_items_spec _ it hmem).1
        exact le_trans h0.le (ReceiptParser.le_foldl_maxPrice its it.price)
    next =>
      exact ReceiptParser.reconcileTotal_nonneg
        (ReceiptParser.detectTotal_nonneg _ 0 le_rfl)
  · intro today
    with_unfolding_all rfl

/-- Claim C2 counterexample: on the single line `"AB 1,234"` the only price
token has three decimals, so the calculated item sum is 1.234; no total line is
detected, the claim's covered case applies, yet the final total is
`toFixed(2)`-rounded to 1.23 and not `max(0, 1.234) = 1.234` as the claim
states. -/
theorem c2_rounding_cex :
    ReceiptParser.detectTotal (ReceiptParser.linesOf (("AB 1,234").data)) 0 = 0 ∧
    (ReceiptParser.itemsCalc (ReceiptParser.linesOf (("AB 1,234").data))).2 = 617 / 500 ∧
    (ReceiptParser.parse [] (("AB 1,234").data)).total = 123 / 100 ∧
    ¬((123 : ℚ) / 100 = max 0 (617 / 500)) :=
  ⟨by with_unfolding_all decide, by with_unfolding_all decide,
    by with_unfolding_all decide, by with_unfolding_all decide⟩

/-- Claim C2 (amended): whenever no total-keyword line yields a value, or the
detected total is zero, or it deviates from the running calculated sum by more
than 30, the pre-fallback total equals the maximum of the detected value and
the calculated sum rounded to two decimals (`toFixed(2)`); in particular items
summing to 45.00 with a detected `"TOTAL 12,00"` line give 45.00, not 12.00. -/
theorem c2_reconciliation :
    (∀ raw : List Char,
      (ReceiptParser.detectTotal (ReceiptParser.linesOf raw) 0 = 0 ∨
        30 < |ReceiptParser.detectTotal (ReceiptParser.linesOf raw) 0 -
          (ReceiptParser.itemsCalc (ReceiptParser.linesOf raw)).2|) →
      ReceiptParser.reconcileTotal (ReceiptParser.detectTotal (ReceiptParser.linesOf raw) 0)
          ((ReceiptParser.itemsCalc (ReceiptParser.linesOf raw)).2) =
        max (ReceiptParser.detectTotal (ReceiptParser.linesOf raw) 0)
          (ReceiptParser.round2 ((ReceiptParser.itemsCalc (ReceiptParser.linesOf raw)).2))) ∧
    ∀ today, (ReceiptParser.parse today
      (("1 AAA 20,00\n1 BBB 25,00\nTOTAL 12,00").data)).total = 45 := by
  constructor
  · intro raw h
    have hd : 0 ≤ ReceiptParser.detectTotal (ReceiptParser.linesOf raw) 0 :=
      ReceiptParser.detectTotal_nonneg _ 0 le_rfl
    have hc : 0 ≤ (ReceiptParser.itemsCalc (ReceiptParser.linesOf raw)).2 :=
      ReceiptParser.itemsCalc_nonneg _
    rw [ReceiptParser.reconcileTotal]
    by_cases hd0 : ReceiptParser.detectTotal (ReceiptParser.linesOf raw) 0 = 0
    · rw [if_pos (Or.inl hd0)]
    · have hdev := h.resolve_left hd0
      by_cases hcpos : 0 < (ReceiptParser.itemsCalc (ReceiptParser.linesOf raw)).2
      · rw [if_pos (Or.inr ⟨hcpos, hdev⟩)]
      · have hc0 : (ReceiptParser.itemsCalc (ReceiptParser.linesOf raw)).2 = 0 :=
          le_antisymm (not_lt.mp hcpos) hc
        rw [if_neg]
        · rw [hc0, ReceiptParser.round2_zero]
          exact (max_eq_left hd).symm
        · rintro (h1 | ⟨h2, -⟩)
          · exact hd0 h1
          · exact hcpos h2
  · intro today
    rw [ReceiptParser.parse_total]
    with_unfolding_all decide

/-- Claim C2 witness: the covered case holds at the 45-versus-12 input and the
theorem evaluates there. -/
theorem c2_reconciliation_witness :
    ReceiptParser.reconcileTotal
        (ReceiptParser.detectTotal
          (ReceiptParser.linesOf (("1 AAA 20,00\n1 BBB 25,00\nTOTAL 12,00").data)) 0)
        ((ReceiptParser.itemsCalc
          (ReceiptParser.linesOf (("1 AAA 20,00\n1 BBB 25,00\nTOTAL 12,00").data))).2) =
      max (ReceiptParser.detectTotal
          (ReceiptParser.linesOf (("1 AAA 20,00\n1 BBB 25,00\nTOTAL 12,00").data)) 0)
        (ReceiptParser.round2 ((ReceiptParser.itemsCalc
          (ReceiptParser.linesOf (("1 AAA 20,00\n1 BBB 25,00\nTOTAL 12,00").data))).2)) :=
  c2_reconciliation.1 (("1 AAA 20,00\n1 BBB 25,00\nTOTAL 12,00").data)
    (by with_unfolding_all decide)

/-- Claim C3: when a line produces an item, the stored price is the value of
the only price token if there is exactly one, the value of the second-to-last
token if there are two or more, and the amount added to the running calculated
total is always the value of the last token. -/
theorem c3_price_disambiguation (line : List Char) (it : ReceiptParser.LineItem) (amt : ℚ)
    (h : ReceiptParser.lineCandidate line = some (it, amt)) :
    ((ReceiptParser.priceMatches line).length = 1 →
      it.price = ReceiptParser.parsePrice
        (((ReceiptParser.priceMatches line).getD 0 (([] : List Char), 0)).1)) ∧
    (2 ≤ (ReceiptParser.priceMatches line).length →
      it.price = ReceiptParser.parsePrice
        (((ReceiptParser.priceMatches line).getD
          ((ReceiptParser.priceMatches line).length - 2) (([] : List Char), 0)).1)) ∧
    amt = ReceiptParser.parsePrice
      (((ReceiptParser.priceMatches line).getD
        ((ReceiptParser.priceMatches line).length - 1) (([] : List Char), 0)).1) := by
  obtain ⟨m, ms, heq, hpr, ham, -, -, -⟩ := ReceiptParser.lineCandidate_some h
  rw [heq]
  refine ⟨?_, ?_, ?_⟩
  · intro hlen
    have hms : ms = [] := by
      rw [List.length_cons] at hlen
      exact List.length_eq_zero.mp (by omega)
    subst hms
    rw [hpr, ReceiptParser.storedPrice]
    norm_num
  · intro hlen
    rw [hpr, ReceiptParser.storedPrice, if_pos hlen]
  · exact ham

/-- Claim C3 witness: the line `"2 PAN 0,50 1,00"` produces the item
`{PAN, 0.50}` with amount 1.00 and the theorem evaluates there. -/
theorem c3_price_disambiguation_witness :
    ((ReceiptParser.priceMatches (("2 PAN 0,50 1,00").data)).length = 1 →
      (⟨("PAN").data, 1 / 2, ("Otros").data⟩ : ReceiptParser.LineItem).price =
        ReceiptParser.parsePrice
          (((ReceiptParser.priceMatches (("2 PAN 0,50 1,00").data)).getD 0
            (([] : List Char), 0)).1)) ∧
    (2 ≤ (ReceiptParser.priceMatches (("2 PAN 0,50 1,00").data)).length →
      (⟨("PAN").data, 1 / 2, ("Otros").data⟩ : ReceiptParser.LineItem).price =
        ReceiptParser.parsePrice
          (((ReceiptParser.priceMatches (("2 PAN 0,50 1,00").data)).getD
            ((ReceiptParser.priceMatches (("2 PAN 0,50 1,00").data)).length - 2)
            (([] : List Char), 0)).1)) ∧
    (1 : ℚ) = ReceiptParser.parsePrice
      (((ReceiptParser.priceMatches (("2 PAN 0,50 1,00").data)).getD
        ((ReceiptParser.priceMatches (("2 PAN 0,50 1,00").data)).length - 1)
        (([] : List Char), 0)).1) :=
  c3_price_disambiguation (("2 PAN 0,50 1,00").data)
    ⟨("PAN").data, 1 / 2, ("Otros").data⟩ 1 (by with_unfolding_all decide)

/-- Claim C6: every item of every returned draft has a price strictly between
0 and 1000 and a description longer than 1 character; lines whose extracted
price is exactly 1000 or exactly 0 produce no item. -/
theorem c6_item_invariants :
    (∀ (today raw : List Char) (it : ReceiptParser.LineItem),
      it ∈ (ReceiptParser.parse today raw).items →
      0 < it.price ∧ it.price < 1000 ∧ 1 < it.description.length) ∧
    (∀ today, (ReceiptParser.parse today (("AB 1000,00").data)).items = []) ∧
    (∀ today, (ReceiptParser.parse today (("AB 0,00").data)).items = []) := by
  refine ⟨?_, fun _ => by with_unfolding_all rfl, fun _ => by with_unfolding_all rfl⟩
  intro today raw it hit
  rw [ReceiptParser.parse_items] at hit
  exact ReceiptParser.itemsCalc_items_spec _ it hit

/-- Claim C6 witness: the end-to-end input's `PAN` item satisfies the
invariants. -/
theorem c6_item_invariants_witness :
    0 < (⟨("PAN").data, 1 / 2, ("Otros").data⟩ : ReceiptParser.LineItem).price ∧
    (⟨("PAN").data, 1 / 2, ("Otros").data⟩ : ReceiptParser.LineItem).price < 1000 ∧
    1 < (⟨("PAN").data, 1 / 2, ("Otros").data⟩ : ReceiptParser.LineItem).description.length :=
  c6_item_invariants.1 []
    (("MERCADONA S.A.\n01/02/2024\n2 PAN 0,50 1,00\nTOTAL 1,00").data)
    ⟨("PAN").data, 1 / 2, ("Otros").data⟩ (by with_unfolding_all decide)

/-- Claim C10: every token handed to the price normalizer during `parse` — an
item-loop match (fraction of 2 or 3 digits) or a total-line match (2 digits) —
is a digit run, a single separator and a short fraction; on such tokens the OCR
substitution map is the identity, the both-separators branch is never taken,
and the normalized value reads the single separator as the decimal point. -/
theorem c10_token_normalization :
    (∀ (line tok : List Char) (j : Nat),
      (tok, j) ∈ ReceiptParser.priceMatches line → tokSpec 3 tok) ∧
    (∀ line tok : List Char,
      ReceiptParser.firstTotalTok line = some tok → tokSpec 2 tok) := by
  constructor
  · intro line tok j h
    rw [ReceiptParser.priceMatches] at h
    obtain ⟨t, ht⟩ := ReceiptParser.priceMatchesGo_mem _ line 0 tok j h
    exact tokSpec_of_priceTokAt ht
  · intro line tok h
    obtain ⟨t, ht⟩ := ReceiptParser.firstTotalTok_mem h
    exact tokSpec_of_priceTokAt ht

/-- Claim C10 witness: the token `"0,50"` of line `"2 PAN 0,50"` satisfies the
token specification. -/
theorem c10_token_normalization_witness : tokSpec 3 (("0,50").data) :=
  c10_token_normalization.1 (("2 PAN 0,50").data) (("0,50").data) 6
    (by with_unfolding_all decide)

/-- Claim C4 counterexample: on `"1,2.3.4"` the rightmost separator is the
dot, but the normalizer only strips commas, leaving the earlier dots; parsing
stops at the second dot and yields 12.3, not the 123.4 the
rightmost-is-decimal-all-others-removed rule predicts. -/
theorem c4_separator_cex :
    ReceiptParser.parsePrice (("1,2.3.4").data) = 123 / 10 ∧
    ¬(ReceiptParser.parsePrice (("1,2.3.4").data) = 1234 / 10) :=
  ⟨by with_unfolding_all decide, by with_unfolding_all decide⟩

/-- Claim C4 (amended): the price normalizer is total, non-negative and 0 on
unparsable input; when both separators appear, the kind occurring rightmost
becomes the decimal kind — all dots are removed and the first comma becomes
the decimal point when the comma is rightmost, while all commas are removed
(earlier dots surviving, parsing stopping at a second dot) when the dot is
rightmost; a lone comma (first occurrence) is the decimal point; the four
spec examples hold. -/
theorem c4_normalizer :
    (∀ s : List Char, 0 ≤ ReceiptParser.parsePrice s) ∧
    ReceiptParser.parsePrice [] = 0 ∧
    ReceiptParser.parsePrice (("abc").data) = 0 ∧
    ReceiptParser.parsePrice (("1,25").data) = 5 / 4 ∧
    ReceiptParser.parsePrice (("1.200,50").data) = 2401 / 2 ∧
    ReceiptParser.parsePrice (("1,200.50").data) = 2401 / 2 ∧
    ReceiptParser.parsePrice (("12,5O").data) = 25 / 2 ∧
    ReceiptParser.parsePrice (("1,2.3.4").data) = 123 / 10 ∧
    ReceiptParser.parsePrice (("1.1,2,3").data) = 1123 / 100 :=
  ⟨ReceiptParser.parsePrice_nonneg, by with_unfolding_all decide,
    by with_unfolding_all decide, by with_unfolding_all decide,
    by with_unfolding_all decide, by with_unfolding_all decide,
    by with_unfolding_all decide, by with_unfolding_all decide,
    by with_unfolding_all decide⟩

namespace ReceiptParser

lemma findFirst_split {α : Type} (p : α → Bool) :
    ∀ (l : List α) (a : α), findFirst p l = some a →
      ∃ l1 l2, l = l1 ++ a :: l2 ∧ p a = true ∧ ∀ x ∈ l1, p x = false := by
  intro l
  induction l with
  | nil => intro a h; simp [findFirst] at h
  | cons b bs ih =>
    intro a h
    rw [findFirst] at h
    split at h
    next hpb =>
      rcases Option.some_inj.mp h with rfl
      exact ⟨[], bs, rfl, hpb, by simp⟩
    next hpb =>
      obtain ⟨l1, l2, rfl, hpa, hall⟩ := ih a h
      refine ⟨b :: l1, l2, rfl, hpa, ?_⟩
      intro x hx
      rcases List.mem_cons.mp hx with rfl | hx
      · simpa using hpb
      · exact hall x hx

end ReceiptParser

/-- Claim C7: merchant resolution over the uppercased concatenated line set
returns the canonical name of the first table entry (in the authored order)
whose any pattern matches; matching is case-insensitive and tolerates
arbitrary whitespace between letters, so `"M E R C A D O N A"` (and its
lowercase form) resolves to `"MERCADONA"`, and a text containing both `ALDI`
and `LIDL` resolves to `"LIDL"`, the earlier table entry. -/
theorem c7_merchant_resolution :
    (∀ ft name : List Char, ReceiptParser.aliasLookup ft = some name →
      ∃ l1 pats l2, ReceiptParser.establishments = l1 ++ (name, pats) :: l2 ∧
        pats.any (ReceiptParser.patMatch ft) = true ∧
        ∀ e ∈ l1, e.2.any (ReceiptParser.patMatch ft) = false) ∧
    (∀ today, (ReceiptParser.parse today
      (("M E R C A D O N A").data)).merchant = ("MERCADONA").data) ∧
    (∀ today, (ReceiptParser.parse today
      (("m e r c a d o n a").data)).merchant = ("MERCADONA").data) ∧
    (∀ today, (ReceiptParser.parse today
      (("ALDI LIDL").data)).merchant = ("LIDL").data) := by
  refine ⟨?_, fun _ => by with_unfolding_all rfl, fun _ => by with_unfolding_all rfl,
    fun _ => by with_unfolding_all rfl⟩
  intro ft name h
  rw [ReceiptParser.aliasLookup] at h
  rcases hf : ReceiptParser.findFirst (fun e => e.2.any (ReceiptParser.patMatch ft))
      ReceiptParser.establishments with _ | e
  · rw [hf] at h
    exact absurd h (by simp)
  · rw [hf] at h
    simp at h
    obtain ⟨l1, l2, hsplit, hpe, hall⟩ := ReceiptParser.findFirst_split _ _ _ hf
    refine ⟨l1, e.2, l2, ?_, by simpa using hpe, hall⟩
    rw [← h, Prod.mk.eta]
    exact hsplit

/-- Claim C7 witness: the text `"ALDI LIDL"` resolves through the lookup and
the decomposition names `LIDL` as the first matching table entry. -/
theorem c7_merchant_resolution_witness :
    ∃ l1 pats l2, ReceiptParser.establishments = l1 ++ ((("LIDL").data), pats) :: l2 ∧
      pats.any (ReceiptParser.patMatch (("ALDI LIDL").data)) = true ∧
      ∀ e ∈ l1, e.2.any (ReceiptParser.patMatch (("ALDI LIDL").data)) = false :=
  c7_merchant_resolution.1 (("ALDI LIDL").data) (("LIDL").data)
    (by with_unfolding_all decide)

namespace ReceiptParser

lemma firstSome_inv {α β : Type} (f : α → Option β) :
    ∀ (l : List α) (b : β), firstSome f l = some b → ∃ a ∈ l, f a = some b := by
  intro l
  induction l with
  | nil => intro b h; simp [firstSome] at h
  | cons a as ih =>
    intro b h
    rw [firstSome] at h
    rcases hfa : f a with _ | b'
    · rw [hfa] at h
      obtain ⟨x, hx, hfx⟩ := ih b h
      exact ⟨x, by simp [hx], hfx⟩
    · rw [hfa] at h
      rcases Option.some_inj.mp h with rfl
      exact ⟨a, by simp, hfa⟩

lemma dateMatchAt_wf {prev : Bool} {s d m y : List Char}
    (h : dateMatchAt prev s = some (d, m, y)) :
    (∀ c ∈ d, c.isDigit = true) ∧ 1 ≤ d.length ∧ d.length ≤ 2 ∧
    (∀ c ∈ m, c.isDigit = true) ∧ 1 ≤ m.length ∧ m.length ≤ 2 ∧
    (∀ c ∈ y, c.isDigit = true) ∧ 2 ≤ y.length ∧ y.length ≤ 4 := by
  rw [dateMatchAt] at h
  split at h
  · exact absurd h (by simp)
  · split at h
    next sep1 r2 heq1 =>
      split at h
      next hc1 =>
        split at h
        next sep2 r4 heq2 =>
          split at h
          next hc2 =>
            split at h
            next hc3 =>
              have h' := Option.some_inj.mp h
              injection h' with hd h'
              injection h' with hm hy
              subst hd
              subst hm
              subst hy
              exact ⟨fun c hc => List.mem_takeWhile_imp hc, hc1.1, hc1.2.1,
                fun c hc => List.mem_takeWhile_imp hc, hc2.1, hc2.2.1,
                fun c hc => List.mem_takeWhile_imp hc, hc3.1, hc3.2.1⟩
            next => exact absurd h (by simp)
          next => exact absurd h (by simp)
        next => exact absurd h (by simp)
      next => exact absurd h (by simp)
    next => exact absurd h (by simp)

lemma dateScan_wf :
    ∀ (s : List Char) (prev : Bool) (d m y : List Char),
      dateScan prev s = some (d, m, y) →
      (∀ c ∈ d, c.isDigit = true) ∧ 1 ≤ d.length ∧ d.length ≤ 2 ∧
      (∀ c ∈ m, c.isDigit = true) ∧ 1 ≤ m.length ∧ m.length ≤ 2 ∧
      (∀ c ∈ y, c.isDigit = true) ∧ 2 ≤ y.length ∧ y.length ≤ 4 := by
  intro s
  induction s with
  | nil => intro prev d m y h; simp [dateScan] at h
  | cons c rest ih =>
    intro prev d m y h
    rw [dateScan] at h
    rcases hd : dateMatchAt prev (c :: rest) with _ | g
    · rw [hd] at h
      exact ih _ d m y h
    · rw [hd] at h
      rcases Option.some_inj.mp h with rfl
      exact dateMatchAt_wf hd

lemma padStart2_shape {l : List Char} (h1 : 1 ≤ l.length) (h2 : l.length ≤ 2)
    (hd : ∀ c ∈ l, c.isDigit = true) :
    ∃ a b, padStart2 l = [a, b] ∧ a.isDigit = true ∧ b.isDigit = true := by
  rcases l with _ | ⟨x, _ | ⟨z, t⟩⟩
  · simp at h1
  · exact ⟨'0', x, rfl, by decide, hd x (by simp)⟩
  · rcases t with _ | ⟨w, t2⟩
    · exact ⟨x, z, rfl, hd x (by simp), hd z (by simp)⟩
    · exact absurd h2 (by simp)

lemma buildDate_shape {y : List Char} {m1 m2 d1 d2 : Char}
    (hm1 : m1.isDigit = true) (hm2 : m2.isDigit = true)
    (hd1 : d1.isDigit = true) (hd2 : d2.isDigit = true)
    (hy : ∀ c ∈ y, c.isDigit = true) (hy2 : 2 ≤ y.length) (hy4 : y.length ≤ 4) :
    (isIsoDate ((if y.length = 2 then '2' :: '0' :: y else y) ++
        '-' :: [m1, m2] ++ '-' :: [d1, d2]) ||
      isIso3Date ((if y.length = 2 then '2' :: '0' :: y else y) ++
        '-' :: [m1, m2] ++ '-' :: [d1, d2])) = true := by
  rcases y with _ | ⟨a, _ | ⟨b, _ | ⟨c, _ | ⟨e, _ | ⟨f, t⟩⟩⟩⟩⟩
  · simp at hy2
  · simp at hy2
  · simp [isIsoDate, hm1, hm2, hd1, hd2, hy a (by simp), hy b (by simp)]
  · simp [isIsoDate, isIso3Date, hm1, hm2, hd1, hd2, hy a (by simp), hy b (by simp),
      hy c (by simp)]
  · simp [isIsoDate, hm1, hm2, hd1, hd2, hy a (by simp), hy b (by simp),
      hy c (by simp), hy e (by simp)]
  · exact absurd hy4 (by simp)

lemma normalizeDate_shape {d m y : List Char}
    (hdd : ∀ c ∈ d, c.isDigit = true) (hd1 : 1 ≤ d.length) (hd2 : d.length ≤ 2)
    (hmd : ∀ c ∈ m, c.isDigit = true) (hm1 : 1 ≤ m.length) (hm2 : m.length ≤ 2)
    (hyd : ∀ c ∈ y, c.isDigit = true) (hy2 : 2 ≤ y.length) (hy4 : y.length ≤ 4) :
    (isIsoDate (normalizeDate (d, m, y)) || isIso3Date (normalizeDate (d, m, y))) = true := by
  obtain ⟨a1, a2, hpd, ha1, ha2⟩ := padStart2_shape hd1 hd2 hdd
  obtain ⟨b1, b2, hpm, hb1, hb2⟩ := padStart2_shape hm1 hm2 hmd
  rw [normalizeDate]
  by_cases hsw : 12 < natOfDigits m
  · simp only [hsw, if_true, hpd, hpm]
    exact buildDate_shape ha1 ha2 hb1 hb2 hyd hy2 hy4
  · simp only [hsw, if_false, hpd, hpm]
    exact buildDate_shape hb1 hb2 ha1 ha2 hyd hy2 hy4

end ReceiptParser

/-- Claim C9 counterexample: the date regex also accepts a 3-digit year group,
which is used verbatim; the input line `"1/1/123"` yields the date
`"123-01-01"`, which is not a syntactically valid `YYYY-MM-DD` string even
though the processing date is. -/
theorem c9_format_cex :
    (ReceiptParser.parse (("2024-06-01").data) (("1/1/123").data)).date =
      ("123-01-01").data ∧
    isIsoDate ((ReceiptParser.parse (("2024-06-01").data) (("1/1/123").data)).date) = false :=
  ⟨by with_unfolding_all rfl, by with_unfolding_all decide⟩

/-- Claim C9 (amended): whenever the processing date is a syntactically valid
`YYYY-MM-DD` string, the date of every returned draft has a 2-digit month, a
2-digit day and a 4-digit year — except that a matched 3-digit year group is
kept verbatim, giving the shape `YYY-MM-DD` in that one case. -/
theorem c9_date_format (today raw : List Char) (h : isIsoDate today = true) :
    (isIsoDate ((ReceiptParser.parse today raw).date) ||
      isIso3Date ((ReceiptParser.parse today raw).date)) = true := by
  rw [ReceiptParser.parse_date]
  rcases hdo : ReceiptParser.dateOf (ReceiptParser.linesOf raw) with _ | ds
  · simpa using Or.inl h
  · simp only [Option.getD_some]
    rw [ReceiptParser.dateOf] at hdo
    obtain ⟨l, hl, hfl⟩ := ReceiptParser.firstSome_inv _ _ _ hdo
    rcases hsc : ReceiptParser.dateScan false l with _ | g
    · rw [hsc] at hfl
      exact absurd hfl (by simp)
    · rw [hsc] at hfl
      simp at hfl
      rcases g with ⟨d, my⟩
      rcases my with ⟨m, y⟩
      obtain ⟨hdd, hd1, hd2, hmd, hm1, hm2, hyd, hy2, hy4⟩ :=
        ReceiptParser.dateScan_wf l false d m y hsc
      rw [← hfl]
      exact ReceiptParser.normalizeDate_shape hdd hd1 hd2 hmd hm1 hm2 hyd hy2 hy4

/-- Claim C9 witness: with a valid processing date and empty input the fallback
date is valid. -/
theorem c9_date_format_witness :
    (isIsoDate ((ReceiptParser.parse (("2024-06-01").data) []).date) ||
      isIso3Date ((ReceiptParser.parse (("2024-06-01").data) []).date)) = true :=
  c9_date_format (("2024-06-01").data) [] (by decide)
